import Mathlib

/-!
Verification of the incremental synchronization engine of the
Utilities_Scraper repository, against its natural-language specification.

The definitions below are shallow embeddings of the Python functions of the
repository.  Python dictionaries are modelled as association lists,
`dict.get` misses and JSON nulls as `Option`, Python exceptions as
`Except PyErr`, and Python's stable `list.sort` as `List.insertionSort`
(a stable sort, hence pointwise equal to Python's stable Timsort for the
same key order).  Machine integers are unbounded in Python, so `Int`/`Nat`
are used directly.
-/

deriving instance DecidableEq for Except

namespace UtilitiesScraper

/-- Python runtime errors that the embedded code can raise. -/
inductive PyErr where
  | keyError
  | indexError
  | typeError
  | zeroDivisionError
  | valueError
deriving DecidableEq, Repr

/-! ## Association-list model of Python dicts -/

/-- `d[k]` / `k in d`: first binding of key `k`, as in a Python dict
(which has at most one binding per key). -/
def dictGet {α : Type} (d : List (String × α)) (k : String) : Option α :=
  (d.find? (fun p => p.1 == k)).map (fun p => p.2)

/-- `d[k] = v`: replace the (unique) binding of `k` when present, append a
new binding at the end otherwise, mirroring in-place assignment on a Python
dict and its insertion order. -/
def dictSet {α : Type} (d : List (String × α)) (k : String) (v : α) :
    List (String × α) :=
  match d with
  | [] => [(k, v)]
  | p :: rest => if p.1 == k then (k, v) :: rest else p :: dictSet rest k v

theorem dictGet_dictSet {α : Type} (d : List (String × α)) (k : String) (v : α) :
    dictGet (dictSet d k v) k = some v := by
  induction d with
  | nil => simp [dictGet, dictSet]
  | cons p rest ih =>
    unfold dictSet
    by_cases hp : (p.1 == k) = true
    · simp [dictGet, hp]
    · rw [if_neg hp]
      unfold dictGet at ih ⊢
      simp only [List.find?_cons, hp]
      exact ih

theorem dictGet_dictSet_ne {α : Type} (d : List (String × α)) (k k' : String)
    (v : α) (h : k ≠ k') : dictGet (dictSet d k v) k' = dictGet d k' := by
  induction d with
  | nil => simp [dictGet, dictSet, h]
  | cons p rest ih =>
    unfold dictSet
    by_cases hp : (p.1 == k) = true
    · rw [if_pos hp]
      unfold dictGet
      have hkk : (k == k') = false := by simpa [Bool.eq_false_iff] using h
      have hpk : p.1 = k := by simpa using hp
      simp only [List.find?_cons, hkk, hpk]
    · rw [if_neg hp]
      unfold dictGet at ih ⊢
      simp only [List.find?_cons]
      by_cases hpk' : (p.1 == k') = true
      · simp only [hpk']
      · simp only [hpk', Bool.false_eq_true]
        simpa using ih

/-! ## HSV data model

`src/scrapers/hsv_scraper_incremental.py` persists, per industry, a list of
meter dicts, each holding a list of reading dicts
`(timestamp, datetime, usage)`.  The `timestamp` field is epoch
milliseconds or JSON null (`Option Int`).  The `datetime` string is, in
every shape the program produces, either the ISO rendering of the
timestamp instant (modelled as `Dt.iso` of the millisecond value, a
rendering that is order- and equality-faithful) or the reduced-granularity
`"month/year"` string of a current-period water record (`Dt.monthly`).
`datetime.fromisoformat` succeeds exactly on the `iso` shape and the
Python code's `"/" in dt_str` test recognizes exactly the `monthly`
shape. -/

/-- The `datetime` string of a reading. -/
inductive Dt where
  | iso (t : Int)
  | monthly (m y : Int)
deriving DecidableEq, Repr

structure HsvReading where
  timestamp : Option Int
  dt : Dt
  usage : Int
deriving DecidableEq, Repr

structure HsvMeter where
  meterNumber : Option String
  unitOfMeasure : Option String
  flowDirection : Option String
  isNetMeter : Bool
  totalReadings : Nat
  readings : List HsvReading
deriving DecidableEq, Repr

/-- The persisted per-source state: industry name to list of meters. -/
abbrev HsvData := List (String × List HsvMeter)

/-- Python truthiness of `reading.get("timestamp")`: `None` and `0` are
falsy. -/
def tsTruthy : Option Int → Bool
  | none => false
  | some t => t != 0

/-- The comparison induced by the Python sort key
`lambda x: x.get("timestamp", 0)` on readings whose timestamps are
integers. -/
def readingLe (a b : HsvReading) : Prop :=
  a.timestamp.getD 0 ≤ b.timestamp.getD 0

instance : DecidableRel readingLe := fun a b =>
  inferInstanceAs (Decidable (a.timestamp.getD 0 ≤ b.timestamp.getD 0))

instance : IsTotal HsvReading readingLe :=
  ⟨fun a b => Int.le_total (a.timestamp.getD 0) (b.timestamp.getD 0)⟩

instance : IsTrans HsvReading readingLe :=
  ⟨fun _ _ _ h h' => le_trans h h'⟩

/-- `existing_readings.sort(key=lambda x: x.get("timestamp", 0))`.
CPython raises `TypeError` as soon as a comparison involves `None`;
with two or more elements every element takes part in at least one
comparison, so the sort raises exactly when the list has length at least
two and some key is `None`.  Otherwise the stable sort by key is
`insertionSort` by `readingLe`. -/
def pySortReadings (rs : List HsvReading) : Except PyErr (List HsvReading) :=
  if 2 ≤ rs.length ∧ rs.any (fun r => r.timestamp == none) then
    .error .typeError
  else
    .ok (rs.insertionSort readingLe)

/-- `existing_timestamps`: the set of truthy `timestamp` values of a
reading list (`set comprehension with an if r.get("timestamp") guard`). -/
def truthyKeysOf (rs : List HsvReading) : List (Option Int) :=
  (rs.filter (fun r => tsTruthy r.timestamp)).map (fun r => r.timestamp)

/-- The readings of the batch that the insertion loop of `merge_data`
appends: those with a truthy timestamp not in the pre-merge
`existing_timestamps` set (which is never updated inside the loop). -/
def appendedReadings (old batch : List HsvReading) : List HsvReading :=
  batch.filter (fun r =>
    tsTruthy r.timestamp && !((truthyKeysOf old).contains r.timestamp))

/-- `merge_data(existing, new_data, industry)` of
`src/scrapers/hsv_scraper_incremental.py` (lines 220-256).  Python
exceptions it can raise are reified: `IndexError` from
`existing[industry][0]` on an empty meter list, `TypeError` from sorting
keys that include `None`. -/
def hsv_merge_data (existing : HsvData) (new_data : HsvData)
    (industry : String) : Except PyErr (HsvData × Nat) :=
  match dictGet new_data industry with
  | none => .ok (existing, 0)
  | some [] => .ok (existing, 0)
  | some (new_meter :: _) =>
    let new_readings := new_meter.readings
    if new_readings.isEmpty then .ok (existing, 0)
    else
      match dictGet existing industry with
      | none =>
        .ok (dictSet existing industry [new_meter], new_readings.length)
      | some [] => .error .indexError
      | some (m0 :: rest) =>
        let appended := appendedReadings m0.readings new_readings
        match pySortReadings (m0.readings ++ appended) with
        | .error e => .error e
        | .ok sorted =>
          .ok (dictSet existing industry
            (⟨m0.meterNumber, m0.unitOfMeasure, m0.flowDirection,
              m0.isNetMeter, sorted.length, sorted⟩ :: rest),
            appended.length)

/-- `get_last_timestamp(data, industry)` of
`src/scrapers/hsv_scraper_incremental.py` (lines 200-218): the
`datetime` of the last reading of the industry's first meter, parsed
with `fromisoformat`, or `None` when the industry/readings are missing
or the string is the `"month/year"` shape (the `"/" in dt_str`
test). -/
def hsv_get_last_timestamp (d : HsvData) (industry : String) : Option Int :=
  match dictGet d industry with
  | none => none
  | some [] => none
  | some (m :: _) =>
    match m.readings.getLast? with
    | none => none
    | some r =>
      match r.dt with
      | .iso t => some t
      | .monthly _ _ => none

/-! ## HSV normalizer and submit/poll fetcher

`process_usage_data` (lines 123-191) and the poll loop of
`get_usage_data` (lines 111-121) of
`src/scrapers/hsv_scraper_incremental.py`.  A raw series point carries
`x` (epoch ms) and `y` (usage); missing JSON fields are `none`. -/

structure RawPoint where
  x : Option Int
  y : Option Int
deriving DecidableEq, Repr

structure RawSeries where
  name : Option String
  data : List RawPoint
deriving DecidableEq, Repr

structure RawMeterInfo where
  meterNumber : Option String
  unitOfMeasure : Option String
  flowDirection : Option String
  isNetMeter : Bool
deriving DecidableEq, Repr

/-- The reduced-granularity `current` record of the WATER branch. -/
structure RawCurrent where
  month : Option Int
  year : Option Int
  usage : Option Int
  unitsOfMeasure : Option (List String)
deriving DecidableEq, Repr

structure RawService where
  meters : List RawMeterInfo
  series : List RawSeries
  dataPoints : Option (List RawPoint)
  current : Option RawCurrent
  unitOfMeasure : Option String
  serviceLocationNumber : Option String
deriving DecidableEq, Repr

/-- One reading dict built from a series point: `timestamp` is `point.get("x")`,
`datetime` is the ISO rendering of `fromtimestamp(point.get("x", 0)/1000)`,
`usage` is `point.get("y", 0)`. -/
def pointToReading (p : RawPoint) : HsvReading :=
  ⟨p.x, .iso (p.x.getD 0), p.y.getD 0⟩

/-- The meters-and-series branch of `process_usage_data`: for each meter,
find the series named after its meter number and convert its points. -/
def processMeters (svc : RawService) : List HsvMeter :=
  svc.meters.map (fun mi =>
    let meter_series := svc.series.find? (fun s => s.name == mi.meterNumber)
    let readings :=
      match meter_series with
      | some s => if s.data.isEmpty then [] else s.data.map pointToReading
      | none => []
    ⟨mi.meterNumber, mi.unitOfMeasure, mi.flowDirection, mi.isNetMeter,
      readings.length, readings⟩)

/-- The WATER fallback branch of `process_usage_data`: points with both
`x` and `y` when present, else (readings empty) the reduced-granularity
`current` record with a null timestamp and a `"month/year"` datetime.
`current.get("unitsOfMeasure", [unit])[0]` raises `IndexError` when the
field is present but an empty list. -/
def processWater (svc : RawService) : Except PyErr (List HsvMeter) :=
  let readings :=
    match svc.dataPoints with
    | some pts =>
      (pts.filter (fun p => p.x.isSome && p.y.isSome)).map pointToReading
    | none => []
  let unit0 := svc.unitOfMeasure.getD "GAL"
  match svc.current, readings with
  | some c, [] =>
    match c.unitsOfMeasure with
    | some [] => .error .indexError
    | some (u :: _) =>
      .ok [⟨svc.serviceLocationNumber.getD "UNKNOWN", some u,
        some "DELIVERED", false, 1,
        [⟨none, .monthly (c.month.getD 0) (c.year.getD 0), c.usage.getD 0⟩]⟩]
    | none =>
      .ok [⟨svc.serviceLocationNumber.getD "UNKNOWN", some unit0,
        some "DELIVERED", false, 1,
        [⟨none, .monthly (c.month.getD 0) (c.year.getD 0), c.usage.getD 0⟩]⟩]
  | _, _ =>
    if readings.isEmpty then .ok []
    else .ok [⟨svc.serviceLocationNumber.getD "UNKNOWN", some unit0,
      some "DELIVERED", false, readings.length, readings⟩]

/-- One industry's services: meters branch when both `meters` and `series`
are nonempty, WATER fallback branch otherwise for the WATER industry. -/
def processServices (industry : String) :
    List RawService → Except PyErr (List HsvMeter)
  | [] => .ok []
  | svc :: rest =>
    let head :=
      if !svc.meters.isEmpty && !svc.series.isEmpty then
        .ok (processMeters svc)
      else if industry == "WATER" then processWater svc
      else .ok []
    match head with
    | .error e => .error e
    | .ok ms =>
      match processServices industry rest with
      | .error e => .error e
      | .ok ms' => .ok (ms ++ ms')

/-- `process_usage_data(data)`: iterate `data["data"].items()`, skipping
industries whose value is falsy (empty); each processed industry gets an
output key even when no meter is produced. -/
def process_usage_data (industries : List (String × List RawService)) :
    Except PyErr HsvData :=
  match industries with
  | [] => .ok []
  | (ind, svcs) :: rest =>
    if svcs.isEmpty then process_usage_data rest
    else
      match processServices ind svcs with
      | .error e => .error e
      | .ok ms =>
        match process_usage_data rest with
        | .error e => .error e
        | .ok d => .ok ((ind, ms) :: d)

/-- One response of the `utility-usage/poll` endpoint: `complete` is
`data.get("status") == "COMPLETE"`, `payload` is the `"data"` entry
(`none` models a response with no such key, so that `data["data"]`
raises `KeyError`). -/
structure HsvPollResp where
  complete : Bool
  payload : Option (List (String × List RawService))
deriving Repr

/-- The poll loop of `get_usage_data`: one initial request, then while the
status is not COMPLETE and retries remain, sleep and re-poll.  `oracle i`
is the response to the i-th request.  Returns the final response and the
number of requests made. -/
def hsvPollGo (oracle : Nat → HsvPollResp) :
    HsvPollResp → Nat → Nat → HsvPollResp × Nat
  | cur, reqs, retries =>
    if cur.complete then (cur, reqs)
    else
      match retries with
      | 0 => (cur, reqs)
      | retries' + 1 => hsvPollGo oracle (oracle reqs) (reqs + 1) retries'

/-- `get_usage_data` (poll part, lines 111-121): 30 retries after the
initial request, then the final response is handed to
`process_usage_data` unconditionally — there is no timeout error. -/
def hsv_get_usage_data (oracle : Nat → HsvPollResp) : Except PyErr HsvData :=
  let final := (hsvPollGo oracle (oracle 0) 1 30).1
  match final.payload with
  | none => .error .keyError
  | some industries => process_usage_data industries

/-- Number of poll requests `get_usage_data` makes against `oracle`. -/
def hsvPollRequests (oracle : Nat → HsvPollResp) : Nat :=
  (hsvPollGo oracle (oracle 0) 1 30).2

/-- The industry loop of `main` (lines 288-318 of
`src/scrapers/hsv_scraper_incremental.py`): fetch then merge per industry,
accumulating the added count.  An exception anywhere propagates out of
`main`, so the remaining industries are not fetched and `save_data` (which
runs only after the loop) is never reached. -/
def hsv_main_loop (oracles : String → Nat → HsvPollResp) (existing : HsvData) :
    List String → Except PyErr (HsvData × Nat)
  | [] => .ok (existing, 0)
  | ind :: rest =>
    match hsv_get_usage_data (oracles ind) with
    | .error e => .error e
    | .ok new_data =>
      match hsv_merge_data existing new_data ind with
      | .error e => .error e
      | .ok (d', a) =>
        match hsv_main_loop oracles d' rest with
        | .error e => .error e
        | .ok (d'', t) => .ok (d'', a + t)

/-! ## Persistence: `save_data` / `_save_json` crash model

`save_data` (`src/scrapers/hsv_scraper_incremental.py`, lines 258-264)
runs `open(DATA_FILE, "w")` followed by `json.dump(data, f)`;
`_save_json` (`src/custom_components/utilities_scraper/scrapers/*.py`)
runs `Path(path).write_text(json.dumps(data))`.  Both open the data file
itself in write mode — which truncates it — and then write the new
serialization in one or more chunks.  No temporary file and no rename are
involved.  The file-system effect is modelled as a sequence of operations
on the data file's content, and an interruption as stopping after any
prefix of them. -/

inductive FsOp where
  | openTruncate
  | writeChunk (c : String)
deriving DecidableEq, Repr

/-- The operation sequence of `save_data`/`_save_json` for a serialization
split into `chunks`. -/
def save_data_ops (chunks : List String) : List FsOp :=
  .openTruncate :: chunks.map .writeChunk

/-- Effect of one operation on the data file's content. -/
def applyFsOp (f : String) : FsOp → String
  | .openTruncate => ""
  | .writeChunk c => f ++ c

/-- All contents the data file can be left with when `save_data` is
interrupted after any prefix of its operations (first entry: not yet
started). -/
def crashContents (old : String) : List FsOp → List String
  | [] => [old]
  | op :: ops => old :: crashContents (applyFsOp old op) ops

/-- Concatenation of a list of chunks. -/
def concatAll : List String → String
  | [] => ""
  | c :: cs => c ++ concatAll cs

/-! ## HSV window planner

`main` of `src/scrapers/hsv_scraper.py` (lines 306-359).  Dates are
modelled as integer day numbers (all arithmetic in the source is in whole
days via `timedelta(days=...)`).  For a span of at most 360 days a single
window is used; otherwise windows are emitted backward from `end`, each
covering `max_chunk_size - 1 = 359` days back from its end, with the next
window ending one day before the current window's start. -/

def chunkWindows (startD : Int) (endD : Int) : List (Int × Int) :=
  if h : startD < endD then
    let s := max (endD - 359) startD
    (s, endD) :: chunkWindows startD (s - 1)
  else []
termination_by (endD - startD).toNat
decreasing_by
  simp_wf
  omega

/-- The window plan of `main`: `days_to_fetch <= 360` gives the single
window, otherwise the backward chunk loop. -/
def planWindows (startD endD : Int) : List (Int × Int) :=
  if endD - startD ≤ 360 then [(startD, endD)] else chunkWindows startD endD

/-- Day `d` is covered by some emitted window. -/
def coveredBy (ws : List (Int × Int)) (d : Int) : Bool :=
  ws.any (fun w => decide (w.1 ≤ d) && decide (d ≤ w.2))

/-! ## Ecobee fetcher, orchestrator fetch phase, normalizer and merger

From `src/scrapers/ecobee_scraper_incremental.py`. -/

/-- One HTTP response to the `runtimeReport` request: a 2xx body, or an
`HTTPError` status raised by `raise_for_status`. -/
inductive EcoHttp where
  | ok (body : String)
  | err (status : Nat)
deriving DecidableEq, Repr

/-- The retry loop of `get_thermostat_data` (lines 155-166): up to three
attempts, sleeping and retrying only on a 500 with attempts left; a 401
(and any other error) is re-raised immediately.  Returns the outcome and
the number of requests made. -/
def ecobeeFetchGo (oracle : Nat → EcoHttp) (attempt : Nat) :
    Except Nat String × Nat :=
  match oracle attempt with
  | .ok b => (.ok b, 1)
  | .err s =>
    if h : s = 500 ∧ attempt < 2 then
      let r := ecobeeFetchGo oracle (attempt + 1)
      (r.1, r.2 + 1)
    else (.error s, 1)
termination_by 2 - attempt
decreasing_by omega

def ecobee_get_thermostat_data (oracle : Nat → EcoHttp) : Except Nat String :=
  (ecobeeFetchGo oracle 0).1

/-- The fetch phase of `main` (lines 318-344): the whole fetch/merge/save
block sits in a `try` whose `except` prints a message and re-raises, so
any request error becomes a pass failure; the handler touches no files,
so the cached token is never invalidated there. -/
structure EcoPassFetch where
  outcome : Except Nat Unit
  requests : Nat
  tokenInvalidated : Bool
deriving Repr

def ecobee_main_fetch_phase (oracle : Nat → EcoHttp) : EcoPassFetch :=
  match ecobeeFetchGo oracle 0 with
  | (.ok _, n) => ⟨.ok (), n, false⟩
  | (.error s, n) => ⟨.error s, n, false⟩

/-- A normalized ecobee reading as stored in the data file:
`timestamp` (epoch ms), `datetime` (ISO instant, order-faithfully
modelled by the same integer), and the column-value map. -/
structure EcoReading where
  timestamp : Int
  dtIso : Int
  data : List (String × String)
deriving DecidableEq, Repr

structure EcoTstat where
  thermostatId : String
  totalReadings : Nat
  readings : List EcoReading
deriving DecidableEq, Repr

/-- The comparison induced by the sort key `lambda x: x["timestamp"]`. -/
def ecoReadingLe (a b : EcoReading) : Prop := a.timestamp ≤ b.timestamp

instance : DecidableRel ecoReadingLe := fun a b =>
  inferInstanceAs (Decidable (a.timestamp ≤ b.timestamp))

instance : IsTotal EcoReading ecoReadingLe :=
  ⟨fun a b => Int.le_total a.timestamp b.timestamp⟩

instance : IsTrans EcoReading ecoReadingLe :=
  ⟨fun _ _ _ h h' => le_trans h h'⟩

/-- Return value of `merge_data` (lines 229-265): the three early paths
return the `existing` dict alone, the full path returns the
`(existing, added)` tuple. -/
inductive EcoMergeRet where
  | bare (d : List EcoTstat)
  | pair (d : List EcoTstat) (added : Nat)
deriving DecidableEq, Repr

/-- `merge_data(existing, new_data)` of
`src/scrapers/ecobee_scraper_incremental.py`.  The state dict's only key
is `"THERMOSTAT"`, modelled as the thermostat list itself
(`existing.get("THERMOSTAT")` is falsy exactly when the list is empty).
NOTE the asymmetric returns, verbatim from the source: `return existing`
(no count) when the new data or its readings are empty and when the
existing state has no thermostat entry; `return existing, added`
otherwise. -/
def ecobee_merge_data (existing new_data : List EcoTstat) : EcoMergeRet :=
  match new_data with
  | [] => .bare existing
  | nt :: _ =>
    if nt.readings.isEmpty then .bare existing
    else
      match existing with
      | [] => .bare [nt]
      | et :: rest =>
        let existing_timestamps := et.readings.map (fun r => r.timestamp)
        let appended := nt.readings.filter
          (fun r => !(existing_timestamps.contains r.timestamp))
        let sorted := (et.readings ++ appended).insertionSort ecoReadingLe
        .pair (⟨et.thermostatId, sorted.length, sorted⟩ :: rest)
          appended.length

/-- The call site in `main` (line 323):
`merged_data, added = merge_data(existing_data, new_data)` — tuple
unpacking of a plain dict (one key) raises `ValueError` whenever
`merge_data` took one of its bare-return paths. -/
def ecobee_main_merge_step (existing new_data : List EcoTstat) :
    Except PyErr (List EcoTstat × Nat) :=
  match ecobee_merge_data existing new_data with
  | .pair d a => .ok (d, a)
  | .bare _ => .error .valueError

/-! ## Ecobee normalizer `process_data`

Lines 168-207 of `src/scrapers/ecobee_scraper_incremental.py`.  A row is
its comma-split parts.  The date/time prefix of a kept row is carried
verbatim (the `strptime`/epoch conversion is an injective, order-faithful
recoding that none of the claims depend on). -/

structure EcoReport where
  thermostatIdentifier : String
  rowList : List (List String)
deriving DecidableEq, Repr

structure EcoRuntimeData where
  columns : String
  reportList : List EcoReport
deriving DecidableEq, Repr

structure EcoProcReading where
  date : String
  time : String
  data : List (String × String)
deriving DecidableEq, Repr

structure EcoProcTstat where
  thermostatId : String
  totalReadings : Nat
  readings : List EcoProcReading
deriving DecidableEq, Repr

/-- `for i, column in enumerate(columns): if i + 2 < len(parts):
reading["data"][column] = parts[i + 2]`. -/
def rowData (cols : List String) (parts : List String) :
    List (String × String) :=
  cols.enum.filterMap (fun ic =>
    (parts.get? (ic.1 + 2)).map (fun v => (ic.2, v)))

/-- The row loop: `for idx, row in enumerate(report["rowList"])`, keeping
rows with `idx % skip == 0` (Python `%` is `Int.fmod`; `idx % 0` raises
`ZeroDivisionError`) and at least two parts. -/
def eco_process_rows (skip : Int) (cols : List String) :
    Nat → List (List String) → Except PyErr (List EcoProcReading)
  | _, [] => .ok []
  | idx, parts :: rows =>
    if skip = 0 then .error .zeroDivisionError
    else if Int.fmod idx skip ≠ 0 then eco_process_rows skip cols (idx + 1) rows
    else if parts.length < 2 then eco_process_rows skip cols (idx + 1) rows
    else
      match eco_process_rows skip cols (idx + 1) rows with
      | .error e => .error e
      | .ok rest =>
        .ok (⟨parts.headI, (parts.get? 1).getD "", rowData cols parts⟩ :: rest)

def eco_process_reports (skip : Int) (cols : List String) :
    List EcoReport → Except PyErr (List EcoProcTstat)
  | [] => .ok []
  | r :: rs =>
    match eco_process_rows skip cols 0 r.rowList with
    | .error e => .error e
    | .ok reads =>
      match eco_process_reports skip cols rs with
      | .error e => .error e
      | .ok rest => .ok (⟨r.thermostatIdentifier, reads.length, reads⟩ :: rest)

/-- `columns.split(',')` on the underlying character list (Python
`str.split` with an explicit separator: the empty string yields `[""]`). -/
def splitOnCommaChars : List Char → List (List Char)
  | [] => [[]]
  | c :: cs =>
    if c = ',' then [] :: splitOnCommaChars cs
    else
      match splitOnCommaChars cs with
      | [] => [[c]]
      | w :: ws => (c :: w) :: ws

def splitOnComma (s : String) : List String :=
  (splitOnCommaChars s.data).map (fun cs => String.mk cs)

/-- `process_data(data, store_interval_minutes)`: empty dict for a falsy
or reportList-less payload; otherwise `skip = store_interval_minutes // 5`
(Python floor division, `Int.fdiv`) and the row filter above under the
`"THERMOSTAT"` key. -/
def ecobee_process_data (data : Option EcoRuntimeData)
    (store_interval_minutes : Int) :
    Except PyErr (List (String × List EcoProcTstat)) :=
  match data with
  | none => .ok []
  | some d =>
    let skip := Int.fdiv store_interval_minutes 5
    let cols := splitOnComma d.columns
    match eco_process_reports skip cols d.reportList with
    | .error e => .error e
    | .ok ts => .ok [("THERMOSTAT", ts)]

/-! ## General lemmas about the HSV merger -/

/-- Readings none of which has a null timestamp. -/
def NoNullTs (rs : List HsvReading) : Prop := ∀ r ∈ rs, r.timestamp ≠ none

instance (rs : List HsvReading) : Decidable (NoNullTs rs) :=
  inferInstanceAs (Decidable (∀ r ∈ rs, r.timestamp ≠ none))

/-- On a list free of null timestamps the Python sort cannot raise and is
the stable sort by key. -/
theorem pySortReadings_ok {rs : List HsvReading} (h : NoNullTs rs) :
    pySortReadings rs = .ok (rs.insertionSort readingLe) := by
  unfold pySortReadings
  rw [if_neg]
  rintro ⟨-, hany⟩
  rcases List.any_eq_true.mp hany with ⟨r, hr, hnone⟩
  exact h r hr (by simpa using hnone)

theorem truthyKeysOf_append (a b : List HsvReading) :
    truthyKeysOf (a ++ b) = truthyKeysOf a ++ truthyKeysOf b := by
  simp [truthyKeysOf, List.filter_append]

theorem truthyKeysOf_perm {a b : List HsvReading} (h : a.Perm b) :
    (truthyKeysOf a).Perm (truthyKeysOf b) :=
  (h.filter _).map _

/-- The timestamps of the appended readings are exactly the truthy batch
keys missing from the existing key set. -/
theorem appendedReadings_map_ts (old batch : List HsvReading) :
    (appendedReadings old batch).map (fun r => r.timestamp) =
      (truthyKeysOf batch).filter
        (fun k => !((truthyKeysOf old).contains k)) := by
  unfold appendedReadings truthyKeysOf
  rw [List.filter_map, List.filter_filter]
  congr 1
  apply List.filter_congr
  intro a _
  simp [Function.comp, Bool.and_comm]

/-- Number of appended readings = number of distinct genuinely-new keys,
when the batch's truthy keys are pairwise distinct. -/
theorem appendedReadings_length (old batch : List HsvReading)
    (hnd : (truthyKeysOf batch).Nodup) :
    (appendedReadings old batch).length =
      (((truthyKeysOf batch).filter
        (fun k => !((truthyKeysOf old).contains k))).dedup).length := by
  have h1 : ((truthyKeysOf batch).filter
      (fun k => !((truthyKeysOf old).contains k))).Nodup :=
    hnd.filter _
  rw [h1.dedup, ← appendedReadings_map_ts, List.length_map]

/-- Every appended reading has a truthy (hence non-null) timestamp. -/
theorem appendedReadings_truthy (old batch : List HsvReading) :
    ∀ r ∈ appendedReadings old batch, tsTruthy r.timestamp = true := by
  intro r hr
  have := List.of_mem_filter hr
  exact (Bool.and_eq_true_iff.mp this).1

theorem appendedReadings_noNull (old batch : List HsvReading) :
    NoNullTs (appendedReadings old batch) := by
  intro r hr he
  have := appendedReadings_truthy old batch r hr
  rw [he] at this
  simp [tsTruthy] at this

theorem noNullTs_append {a b : List HsvReading} (ha : NoNullTs a)
    (hb : NoNullTs b) : NoNullTs (a ++ b) := by
  intro r hr
  rcases List.mem_append.mp hr with h | h
  · exact ha r h
  · exact hb r h

theorem noNullTs_perm {a b : List HsvReading} (h : a.Perm b)
    (ha : NoNullTs a) : NoNullTs b := fun r hr => ha r (h.symm.subset hr)

/-- In a list sorted by `readingLe`, every element's key is at most the
last element's key. -/
theorem sorted_le_getLast {l : List HsvReading}
    (hs : List.Sorted readingLe l) {x : HsvReading} (hx : x ∈ l)
    (h : l ≠ []) : readingLe x (l.getLast h) := by
  induction l with
  | nil => cases hx
  | cons a t ih =>
    cases t with
    | nil =>
      rcases List.mem_singleton.mp hx with rfl
      exact le_refl _
    | cons b t' =>
      rw [List.getLast_cons (by simp)]
      rcases List.mem_cons.mp hx with rfl | hx'
      · exact List.rel_of_sorted_cons hs _ (List.getLast_mem _)
      · exact ih hs.of_cons hx' (by simp)

/-- Unfolding of `merge_data` on its main path: the batch's industry is
present and nonempty, its first meter has readings, and the industry is
already present in the existing state with at least one meter. -/
theorem hsv_merge_kept (existing new_data : HsvData) (ind : String)
    {m0 : HsvMeter} {rest : List HsvMeter} {nm : HsvMeter}
    {nrest : List HsvMeter}
    (hE : dictGet existing ind = some (m0 :: rest))
    (hN : dictGet new_data ind = some (nm :: nrest))
    (hne : nm.readings ≠ []) :
    hsv_merge_data existing new_data ind =
      match pySortReadings
          (m0.readings ++ appendedReadings m0.readings nm.readings) with
      | .error e => .error e
      | .ok sorted =>
        .ok (dictSet existing ind
          (⟨m0.meterNumber, m0.unitOfMeasure, m0.flowDirection,
            m0.isNetMeter, sorted.length, sorted⟩ :: rest),
          (appendedReadings m0.readings nm.readings).length) := by
  have hempty : nm.readings.isEmpty = false := by
    cases h : nm.readings.isEmpty
    · rfl
    · exact absurd (List.isEmpty_iff.mp h) hne
  simp only [hsv_merge_data, hN, hE, hempty, Bool.false_eq_true, if_false]

/-- The spec's count "M genuinely new keys": the number of distinct
truthy dedup keys of the batch that are not already present among the
existing readings' truthy keys (a spec-side measure, for comparison with
the code's `addedCount`). -/
def specDistinctNewKeys (old batch : List HsvReading) : Nat :=
  (((truthyKeysOf batch).filter
    (fun k => !((truthyKeysOf old).contains k))).dedup).length

/-! ## C1 — dedup growth and idempotent re-merge -/

def c1Meter : HsvMeter :=
  ⟨some "M1", some "KWH", some "DELIVERED", false, 1, [⟨some 1, .iso 1, 10⟩]⟩

def c1BatchMeter : HsvMeter :=
  ⟨some "M1", some "KWH", some "DELIVERED", false, 2,
    [⟨some 5, .iso 5, 1⟩, ⟨some 5, .iso 5, 2⟩]⟩

def c1State : HsvData := [("ELECTRIC", [c1Meter])]

def c1Batch : HsvData := [("ELECTRIC", [c1BatchMeter])]

/-- C1, counterexample.  The claim says the series grows by exactly the
number M of genuinely new dedup keys of the batch and that
`addedCount = M`.  Against `merge_data` of
`src/scrapers/hsv_scraper_incremental.py` this fails when the batch
repeats a new key: the membership set is computed before the insertion
loop and never updated, so a batch with two readings carrying the same
fresh timestamp 5 is merged with `addedCount = 2` and the series grows by
2, while M = 1. -/
theorem C1_counterexample :
    hsv_merge_data c1State c1Batch "ELECTRIC" =
      .ok ([("ELECTRIC",
        [⟨some "M1", some "KWH", some "DELIVERED", false, 3,
          [⟨some 1, .iso 1, 10⟩, ⟨some 5, .iso 5, 1⟩,
           ⟨some 5, .iso 5, 2⟩]⟩])], 2) ∧
    specDistinctNewKeys c1Meter.readings c1BatchMeter.readings = 1 := by
  constructor
  · decide
  · decide

/-- The merged state of a merge result (`[]` for a raised exception). -/
def mergeOutState (x : Except PyErr (HsvData × Nat)) : HsvData :=
  match x with
  | .ok (d, _) => d
  | .error _ => []

/-- The `addedCount` of a merge result (`none` for a raised exception). -/
def mergeOutAdded (x : Except PyErr (HsvData × Nat)) : Option Nat :=
  match x with
  | .ok (_, a) => some a
  | .error _ => none

/-- The readings list that `merge_data` inspects and rewrites: first
meter of the industry, or empty. -/
def seriesReadings (d : HsvData) (ind : String) : List HsvReading :=
  match dictGet d ind with
  | some (m :: _) => m.readings
  | _ => []

/-- C1, amended.  When merging a batch into an already-present series
(nonempty meter list) whose readings all carry non-null timestamps, and
the batch's truthy timestamps are pairwise distinct, the claim holds:
`addedCount = M` = the number of genuinely new keys, the series grows by
exactly M, and re-merging the same batch yields `addedCount = 0` and the
same series. -/
theorem C1_amended (existing new_data : HsvData) (ind : String)
    (m0 : HsvMeter) (rest : List HsvMeter) (nm : HsvMeter)
    (nrest : List HsvMeter)
    (hE : dictGet existing ind = some (m0 :: rest))
    (hN : dictGet new_data ind = some (nm :: nrest))
    (hne : nm.readings ≠ [])
    (hnn : NoNullTs m0.readings)
    (hnd : (truthyKeysOf nm.readings).Nodup) :
    mergeOutAdded (hsv_merge_data existing new_data ind) =
      some (specDistinctNewKeys m0.readings nm.readings) ∧
    (seriesReadings (mergeOutState (hsv_merge_data existing new_data ind))
      ind).length =
      m0.readings.length + specDistinctNewKeys m0.readings nm.readings ∧
    mergeOutAdded (hsv_merge_data
      (mergeOutState (hsv_merge_data existing new_data ind)) new_data ind) =
      some 0 ∧
    seriesReadings (mergeOutState (hsv_merge_data
      (mergeOutState (hsv_merge_data existing new_data ind)) new_data ind))
      ind =
      seriesReadings (mergeOutState (hsv_merge_data existing new_data ind))
        ind := by
  have hnnApp : NoNullTs (appendedReadings m0.readings nm.readings) :=
    appendedReadings_noNull _ _
  have hnnComb :
      NoNullTs (m0.readings ++ appendedReadings m0.readings nm.readings) :=
    noNullTs_append hnn hnnApp
  have hsortok := pySortReadings_ok hnnComb
  have hM : (appendedReadings m0.readings nm.readings).length =
      specDistinctNewKeys m0.readings nm.readings :=
    appendedReadings_length _ _ hnd
  set sorted :=
    (m0.readings ++ appendedReadings m0.readings nm.readings).insertionSort
      readingLe with hsorteddef
  have hperm :
      sorted.Perm (m0.readings ++ appendedReadings m0.readings nm.readings) :=
    List.perm_insertionSort _ _
  set m0' : HsvMeter :=
    ⟨m0.meterNumber, m0.unitOfMeasure, m0.flowDirection, m0.isNetMeter,
      sorted.length, sorted⟩ with hm0def
  set d' := dictSet existing ind (m0' :: rest) with hd'def
  have hmerge1 : hsv_merge_data existing new_data ind =
      .ok (d', specDistinctNewKeys m0.readings nm.readings) := by
    rw [hsv_merge_kept existing new_data ind hE hN hne, hsortok, hM]
  have hgetd' : dictGet d' ind = some (m0' :: rest) := dictGet_dictSet _ _ _
  have hnnSorted : NoNullTs sorted := noNullTs_perm hperm.symm hnnComb
  have hsortedSorted : List.Sorted readingLe sorted :=
    List.sorted_insertionSort readingLe _
  have happ2 : appendedReadings sorted nm.readings = [] := by
    apply List.filter_eq_nil_iff.mpr
    intro r hr
    by_cases ht : tsTruthy r.timestamp = true
    · have hmem : r.timestamp ∈ truthyKeysOf sorted := by
        have hpermKeys := truthyKeysOf_perm hperm
        rw [truthyKeysOf_append] at hpermKeys
        by_cases hold : (truthyKeysOf m0.readings).contains r.timestamp = true
        · exact hpermKeys.symm.subset
            (List.mem_append.mpr (Or.inl (List.mem_of_elem_eq_true hold)))
        · have hnotmem : r.timestamp ∉ truthyKeysOf m0.readings :=
            fun hm => hold (List.elem_eq_true_of_mem hm)
          have hrapp : r ∈ appendedReadings m0.readings nm.readings :=
            List.mem_filter.mpr ⟨hr, by simp [ht, hnotmem]⟩
          have : r.timestamp ∈
              truthyKeysOf (appendedReadings m0.readings nm.readings) := by
            unfold truthyKeysOf
            exact List.mem_map.mpr ⟨r, List.mem_filter.mpr ⟨hrapp, ht⟩, rfl⟩
          exact hpermKeys.symm.subset (List.mem_append.mpr (Or.inr this))
      simp [ht, hmem]
    · simp [Bool.not_eq_true] at ht
      simp [ht]
  have hmerge2 : hsv_merge_data d' new_data ind =
      .ok (dictSet d' ind (m0' :: rest), 0) := by
    rw [hsv_merge_kept d' new_data ind hgetd' hN hne]
    have : m0'.readings = sorted := rfl
    rw [this, happ2, List.append_nil, pySortReadings_ok hnnSorted,
      hsortedSorted.insertionSort_eq]
    rfl
  have hseries1 : seriesReadings d' ind = sorted := by
    unfold seriesReadings
    rw [hgetd']
  have hseries2 : seriesReadings (dictSet d' ind (m0' :: rest)) ind =
      sorted := by
    unfold seriesReadings
    rw [dictGet_dictSet]
  refine ⟨?_, ?_, ?_, ?_⟩
  · rw [hmerge1]
    rfl
  · rw [hmerge1]
    show (seriesReadings d' ind).length = _
    rw [hseries1, hperm.length_eq, List.length_append, hM]
  · rw [hmerge1]
    show mergeOutAdded (hsv_merge_data d' new_data ind) = some 0
    rw [hmerge2]
    rfl
  · rw [hmerge1]
    show seriesReadings
        (mergeOutState (hsv_merge_data d' new_data ind)) ind =
      seriesReadings d' ind
    rw [hmerge2]
    show seriesReadings (dictSet d' ind (m0' :: rest)) ind = _
    rw [hseries2, hseries1]

def c1wMeter : HsvMeter :=
  ⟨some "M1", some "KWH", some "DELIVERED", false, 1, [⟨some 1, .iso 1, 10⟩]⟩

def c1wBatchMeter : HsvMeter :=
  ⟨some "M1", some "KWH", some "DELIVERED", false, 1, [⟨some 5, .iso 5, 7⟩]⟩

/-- Witness for `C1_amended` at a concrete input. -/
theorem C1_amended_witness :
    mergeOutAdded (hsv_merge_data [("ELECTRIC", [c1wMeter])]
        [("ELECTRIC", [c1wBatchMeter])] "ELECTRIC") =
      some (specDistinctNewKeys c1wMeter.readings c1wBatchMeter.readings) ∧
    (seriesReadings (mergeOutState (hsv_merge_data [("ELECTRIC", [c1wMeter])]
        [("ELECTRIC", [c1wBatchMeter])] "ELECTRIC")) "ELECTRIC").length =
      c1wMeter.readings.length +
        specDistinctNewKeys c1wMeter.readings c1wBatchMeter.readings ∧
    mergeOutAdded (hsv_merge_data
      (mergeOutState (hsv_merge_data [("ELECTRIC", [c1wMeter])]
        [("ELECTRIC", [c1wBatchMeter])] "ELECTRIC"))
      [("ELECTRIC", [c1wBatchMeter])] "ELECTRIC") = some 0 ∧
    seriesReadings (mergeOutState (hsv_merge_data
      (mergeOutState (hsv_merge_data [("ELECTRIC", [c1wMeter])]
        [("ELECTRIC", [c1wBatchMeter])] "ELECTRIC"))
      [("ELECTRIC", [c1wBatchMeter])] "ELECTRIC")) "ELECTRIC" =
      seriesReadings (mergeOutState (hsv_merge_data
        [("ELECTRIC", [c1wMeter])] [("ELECTRIC", [c1wBatchMeter])]
        "ELECTRIC")) "ELECTRIC" :=
  C1_amended [("ELECTRIC", [c1wMeter])] [("ELECTRIC", [c1wBatchMeter])]
    "ELECTRIC" c1wMeter [] c1wBatchMeter [] (by decide) (by decide)
    (by decide) (by decide) (by decide)

/-! ## C2 — sort invariant after merge -/

theorem mem_truthyKeysOf {rs : List HsvReading} {k : Option Int} :
    k ∈ truthyKeysOf rs ↔ ∃ r ∈ rs, r.timestamp = k ∧ tsTruthy k = true := by
  unfold truthyKeysOf
  constructor
  · intro h
    rcases List.mem_map.mp h with ⟨r, hr, rfl⟩
    rcases List.mem_filter.mp hr with ⟨hr', ht⟩
    exact ⟨r, hr', rfl, ht⟩
  · rintro ⟨r, hr, rfl, ht⟩
    exact List.mem_map.mpr ⟨r, List.mem_filter.mpr ⟨hr, ht⟩, rfl⟩

/-- Adjacent-pair sortedness of a reading list by the Python sort key,
as an executable check. -/
def sortedByTsB : List HsvReading → Bool
  | [] => true
  | [_] => true
  | a :: b :: t =>
    decide (a.timestamp.getD 0 ≤ b.timestamp.getD 0) && sortedByTsB (b :: t)

def c2BatchMeter : HsvMeter :=
  ⟨some "M1", some "KWH", some "DELIVERED", false, 3,
    [⟨some 5, .iso 5, 1⟩, ⟨some 5, .iso 5, 2⟩, ⟨some 1, .iso 1, 3⟩]⟩

/-- C2, counterexample.  The claim says that after every merge every
persisted series is sorted ascending by key with no duplicate keys.  On
the series-creation path (`industry not in existing`) `merge_data` stores
the incoming meter verbatim — no sort, no dedup — so merging an unsorted
batch with a repeated timestamp into an empty state leaves a series that
is out of order (5 before 1) and has timestamp 5 twice. -/
theorem C2_counterexample :
    hsv_merge_data [] [("ELECTRIC", [c2BatchMeter])] "ELECTRIC" =
      .ok ([("ELECTRIC", [c2BatchMeter])], 3) ∧
    sortedByTsB c2BatchMeter.readings = false ∧
    decide ((c2BatchMeter.readings.map (fun r => r.timestamp)).Nodup) =
      false := by
  refine ⟨by decide, by decide, by decide⟩

/-- C2, amended.  When merging into an already-present series (nonempty
meter list) whose readings all have non-null timestamps, the merged
readings are sorted ascending by the timestamp key; when moreover the
existing timestamps are pairwise distinct and the batch's truthy
timestamps are pairwise distinct, the merged timestamps are pairwise
distinct.  (The series-creation path stores the batch verbatim.) -/
theorem C2_amended (existing new_data : HsvData) (ind : String)
    (m0 : HsvMeter) (rest : List HsvMeter) (nm : HsvMeter)
    (nrest : List HsvMeter)
    (hE : dictGet existing ind = some (m0 :: rest))
    (hN : dictGet new_data ind = some (nm :: nrest))
    (hne : nm.readings ≠ [])
    (hnn : NoNullTs m0.readings)
    (hndOld : (m0.readings.map (fun r => r.timestamp)).Nodup)
    (hnd : (truthyKeysOf nm.readings).Nodup) :
    List.Sorted readingLe
      (seriesReadings (mergeOutState (hsv_merge_data existing new_data ind))
        ind) ∧
    ((seriesReadings (mergeOutState (hsv_merge_data existing new_data ind))
      ind).map (fun r => r.timestamp)).Nodup := by
  have hnnApp : NoNullTs (appendedReadings m0.readings nm.readings) :=
    appendedReadings_noNull _ _
  have hnnComb :
      NoNullTs (m0.readings ++ appendedReadings m0.readings nm.readings) :=
    noNullTs_append hnn hnnApp
  have hsortok := pySortReadings_ok hnnComb
  set sorted :=
    (m0.readings ++ appendedReadings m0.readings nm.readings).insertionSort
      readingLe with hsorteddef
  have hperm :
      sorted.Perm (m0.readings ++ appendedReadings m0.readings nm.readings) :=
    List.perm_insertionSort _ _
  set m0' : HsvMeter :=
    ⟨m0.meterNumber, m0.unitOfMeasure, m0.flowDirection, m0.isNetMeter,
      sorted.length, sorted⟩ with hm0def
  have hmerge : hsv_merge_data existing new_data ind =
      .ok (dictSet existing ind (m0' :: rest),
        (appendedReadings m0.readings nm.readings).length) := by
    rw [hsv_merge_kept existing new_data ind hE hN hne, hsortok]
  have hseries :
      seriesReadings (mergeOutState (hsv_merge_data existing new_data ind))
        ind = sorted := by
    rw [hmerge]
    show seriesReadings (dictSet existing ind (m0' :: rest)) ind = sorted
    unfold seriesReadings
    rw [dictGet_dictSet]
  rw [hseries]
  refine ⟨List.sorted_insertionSort readingLe _, ?_⟩
  have hpermTs :
      (sorted.map (fun r => r.timestamp)).Perm
        ((m0.readings ++ appendedReadings m0.readings nm.readings).map
          (fun r => r.timestamp)) := hperm.map _
  · rw [hpermTs.nodup_iff, List.map_append]
    have happTs := appendedReadings_map_ts m0.readings nm.readings
    have hndApp :
        ((appendedReadings m0.readings nm.readings).map
          (fun r => r.timestamp)).Nodup := by
      rw [happTs]
      exact hnd.filter _
    rw [List.nodup_append]
    refine ⟨hndOld, hndApp, ?_⟩
    intro k hkOld hkApp
    rw [happTs] at hkApp
    rcases List.mem_filter.mp hkApp with ⟨hkNew, hkNotOld⟩
    have htruthy : tsTruthy k = true :=
      (mem_truthyKeysOf.mp hkNew).choose_spec.2.2
    rcases List.mem_map.mp hkOld with ⟨r, hrOld, rfl⟩
    have hmemOld : r.timestamp ∈ truthyKeysOf m0.readings :=
      mem_truthyKeysOf.mpr ⟨r, hrOld, rfl, htruthy⟩
    have hcontr : (truthyKeysOf m0.readings).contains r.timestamp = true := by
      simpa using hmemOld
    rw [hcontr] at hkNotOld
    simp at hkNotOld

def c2wBatchMeter : HsvMeter :=
  ⟨some "M1", some "KWH", some "DELIVERED", false, 1, [⟨some 5, .iso 5, 7⟩]⟩

/-- Witness for `C2_amended` at a concrete input. -/
theorem C2_amended_witness :
    List.Sorted readingLe
      (seriesReadings (mergeOutState (hsv_merge_data
        [("ELECTRIC", [c1Meter])] [("ELECTRIC", [c2wBatchMeter])]
        "ELECTRIC")) "ELECTRIC") ∧
    ((seriesReadings (mergeOutState (hsv_merge_data
      [("ELECTRIC", [c1Meter])] [("ELECTRIC", [c2wBatchMeter])]
      "ELECTRIC")) "ELECTRIC").map (fun r => r.timestamp)).Nodup :=
  C2_amended [("ELECTRIC", [c1Meter])] [("ELECTRIC", [c2wBatchMeter])]
    "ELECTRIC" c1Meter [] c2wBatchMeter [] (by decide) (by decide)
    (by decide) (by decide) (by decide) (by decide)

/-! ## C7 — checkpoint monotonicity -/

/-- The checkpoint derived from a readings list: parsed datetime of the
last reading, `none` for an empty list or a monthly datetime. -/
def lastCp (rs : List HsvReading) : Option Int :=
  match rs.getLast? with
  | none => none
  | some r =>
    match r.dt with
    | .iso t => some t
    | .monthly _ _ => none

theorem hsv_get_last_timestamp_eq (d : HsvData) (ind : String) :
    hsv_get_last_timestamp d ind = lastCp (seriesReadings d ind) := by
  unfold hsv_get_last_timestamp seriesReadings
  cases h : dictGet d ind with
  | none => rfl
  | some ms => cases ms with
    | nil => rfl
    | cons m t => rfl

/-- Order on optional checkpoints: a missing checkpoint is below
everything; a present one never regresses to missing or to a smaller
value. -/
def cpLe : Option Int → Option Int → Prop
  | none, _ => True
  | some _, none => False
  | some x, some y => x ≤ y

instance : ∀ a b : Option Int, Decidable (cpLe a b)
  | none, _ => .isTrue trivial
  | some _, none => .isFalse (fun h => h)
  | some x, some y => inferInstanceAs (Decidable (x ≤ y))

theorem cpLe_refl : ∀ a : Option Int, cpLe a a
  | none => trivial
  | some x => le_refl x

/-- Well-formedness of a persisted/normalized reading: the datetime
string is the ISO rendering of the timestamp when one is present, and the
monthly shape exactly when the timestamp is null — which is what
`process_usage_data` produces for every point that carries `x`. -/
def readingWF (r : HsvReading) : Bool :=
  match r.timestamp, r.dt with
  | some t, .iso u => t == u
  | none, .monthly _ _ => true
  | _, _ => false

theorem readingWF_some {r : HsvReading} {t : Int} (h : readingWF r = true)
    (ht : r.timestamp = some t) : r.dt = .iso t := by
  unfold readingWF at h
  rw [ht] at h
  cases hdt : r.dt with
  | iso u =>
    rw [hdt] at h
    simp only [beq_iff_eq] at h
    rw [h]
  | monthly m y =>
    rw [hdt] at h
    cases h

theorem readingWF_iso {r : HsvReading} {t : Int} (h : readingWF r = true)
    (hdt : r.dt = .iso t) : r.timestamp = some t := by
  cases hts : r.timestamp with
  | none =>
    unfold readingWF at h
    rw [hts, hdt] at h
    cases h
  | some u =>
    have := readingWF_some h hts
    rw [hdt] at this
    cases this
    rfl

/-- Inversion of a successful Python sort: the result is the stable sort
and no `TypeError` condition held. -/
theorem pySortReadings_ok_inv {rs out : List HsvReading}
    (h : pySortReadings rs = .ok out) :
    out = rs.insertionSort readingLe ∧
      ¬(2 ≤ rs.length ∧ rs.any (fun r => r.timestamp == none) = true) := by
  unfold pySortReadings at h
  by_cases hc : 2 ≤ rs.length ∧ rs.any (fun r => r.timestamp == none) = true
  · rw [if_pos hc] at h
    cases h
  · rw [if_neg hc] at h
    exact ⟨(Except.ok.injEq _ _).mp h |>.symm, hc⟩

/-- The checkpoint of the sorted union is at least the checkpoint of the
previous readings, for well-formed readings. -/
theorem lastCp_mono (old app sorted : List HsvReading)
    (hwfOld : ∀ r ∈ old, readingWF r = true)
    (hwfApp : ∀ r ∈ app, readingWF r = true)
    (hok : pySortReadings (old ++ app) = .ok sorted) :
    cpLe (lastCp old) (lastCp sorted) := by
  obtain ⟨hsorted_eq, hguard⟩ := pySortReadings_ok_inv hok
  cases holdN : old.getLast? with
  | none =>
    show cpLe (lastCp old) _
    unfold lastCp
    rw [holdN]
    trivial
  | some ol =>
    cases hdt : ol.dt with
    | monthly m y =>
      simp only [lastCp, holdN, hdt]
      trivial
    | iso t0 =>
      have holmem : ol ∈ old :=
        List.mem_of_mem_getLast? (holdN ▸ Option.mem_def.mpr rfl)
      have hwfol := hwfOld ol holmem
      have htsol : ol.timestamp = some t0 := readingWF_iso hwfol hdt
      have holdne : old ≠ [] := by
        intro hnil
        rw [hnil] at holdN
        cases holdN
      have hperm : sorted.Perm (old ++ app) := by
        rw [hsorted_eq]
        exact List.perm_insertionSort _ _
      have hlenpos : 0 < old.length := List.length_pos.mpr holdne
      have hsortedne : sorted ≠ [] := by
        intro hnil
        have := hperm.length_eq
        rw [hnil] at this
        simp only [List.length_nil, List.length_append] at this
        omega
      have hLmem : sorted.getLast hsortedne ∈ sorted := List.getLast_mem _
      have hLcomb : sorted.getLast hsortedne ∈ old ++ app :=
        hperm.subset hLmem
      have hwfL : readingWF (sorted.getLast hsortedne) = true := by
        rcases List.mem_append.mp hLcomb with h | h
        · exact hwfOld _ h
        · exact hwfApp _ h
      rcases Nat.lt_or_ge (old ++ app).length 2 with hlen | hlen
      · rw [List.length_append] at hlen
        have hold1 : old.length = 1 := by omega
        have happ0 : app.length = 0 := by omega
        rcases List.length_eq_one.mp hold1 with ⟨x, hx⟩
        have happnil : app = [] := List.length_eq_zero.mp happ0
        have hxol : x = ol := by
          rw [hx] at holdN
          cases holdN
          rfl
        have hsingle : sorted = [ol] := by
          rw [hsorted_eq, hx, happnil, hxol]
          rfl
        simp only [lastCp, holdN, hdt, hsingle, List.getLast?_singleton]
        exact le_refl t0
      · have hany : (old ++ app).any (fun r => r.timestamp == none) = false := by
          cases hv : (old ++ app).any (fun r => r.timestamp == none)
          · rfl
          · exact absurd ⟨hlen, hv⟩ hguard
        have hnnComb : NoNullTs (old ++ app) := by
          intro r hr he
          have := List.any_eq_false.mp hany r hr
          rw [he] at this
          simp at this
        have hnnSorted : NoNullTs sorted := noNullTs_perm hperm.symm hnnComb
        cases hLts : (sorted.getLast hsortedne).timestamp with
        | none => exact absurd hLts (hnnSorted _ hLmem)
        | some tL =>
          have hdtL : (sorted.getLast hsortedne).dt = .iso tL :=
            readingWF_some hwfL hLts
          have hol_in_sorted : ol ∈ sorted :=
            hperm.mem_iff.mpr (List.mem_append.mpr (Or.inl holmem))
          have hsortedSorted : List.Sorted readingLe sorted := by
            rw [hsorted_eq]
            exact List.sorted_insertionSort readingLe _
          have hle : readingLe ol (sorted.getLast hsortedne) :=
            sorted_le_getLast hsortedSorted hol_in_sorted hsortedne
          unfold readingLe at hle
          rw [htsol, hLts] at hle
          simp only [Option.getD_some] at hle
          simp only [lastCp, holdN, hdt,
            List.getLast?_eq_getLast sorted hsortedne, hdtL]
          exact hle

/-- C7: the checkpoint that `get_last_timestamp` derives from the
persisted state after a successful `merge_data` call is at least the
checkpoint before it — it never regresses, including when nothing was
added.  Hypotheses: the stored and fetched readings are well-formed
(datetime consistent with timestamp, as the normalizer produces them);
the merge did not raise. -/
theorem C7_checkpoint_monotone (existing new_data : HsvData) (ind : String)
    (d' : HsvData) (a : Nat)
    (hwfE : ∀ r ∈ seriesReadings existing ind, readingWF r = true)
    (hwfN : ∀ r ∈ seriesReadings new_data ind, readingWF r = true)
    (hm : hsv_merge_data existing new_data ind = .ok (d', a)) :
    cpLe (hsv_get_last_timestamp existing ind)
      (hsv_get_last_timestamp d' ind) := by
  rw [hsv_get_last_timestamp_eq, hsv_get_last_timestamp_eq]
  cases hNd : dictGet new_data ind with
  | none =>
    simp only [hsv_merge_data, hNd, Except.ok.injEq, Prod.mk.injEq] at hm
    obtain ⟨rfl, -⟩ := hm
    exact cpLe_refl _
  | some ms =>
    cases ms with
    | nil =>
      simp only [hsv_merge_data, hNd, Except.ok.injEq, Prod.mk.injEq] at hm
      obtain ⟨rfl, -⟩ := hm
      exact cpLe_refl _
    | cons nm nrest =>
      cases hre : nm.readings.isEmpty
      case false =>
        have hnmne : nm.readings ≠ [] := by
          intro hnil
          rw [hnil] at hre
          cases hre
        cases hEd : dictGet existing ind with
        | none =>
          simp only [hsv_merge_data, hNd, hre, hEd, Bool.false_eq_true,
            if_false, Except.ok.injEq, Prod.mk.injEq] at hm
          obtain ⟨rfl, -⟩ := hm
          unfold seriesReadings
          rw [hEd]
          show cpLe (lastCp []) _
          trivial
        | some ems =>
          cases ems with
          | nil =>
            simp only [hsv_merge_data, hNd, hre, hEd, Bool.false_eq_true,
              if_false] at hm
            cases hm
          | cons m0 rest =>
            rw [hsv_merge_kept existing new_data ind hEd hNd hnmne] at hm
            cases hsort : pySortReadings
                (m0.readings ++ appendedReadings m0.readings nm.readings) with
            | error e =>
              rw [hsort] at hm
              cases hm
            | ok sorted =>
              rw [hsort] at hm
              simp only [Except.ok.injEq, Prod.mk.injEq] at hm
              obtain ⟨rfl, -⟩ := hm
              have hsE : seriesReadings existing ind = m0.readings := by
                unfold seriesReadings
                rw [hEd]
              have hsN : seriesReadings new_data ind = nm.readings := by
                unfold seriesReadings
                rw [hNd]
              have hsD : seriesReadings
                  (dictSet existing ind
                    (⟨m0.meterNumber, m0.unitOfMeasure, m0.flowDirection,
                      m0.isNetMeter, sorted.length, sorted⟩ :: rest)) ind =
                  sorted := by
                unfold seriesReadings
                rw [dictGet_dictSet]
              rw [hsE, hsD]
              apply lastCp_mono m0.readings
                (appendedReadings m0.readings nm.readings) sorted
              · intro r hr
                exact hwfE r (by rw [hsE]; exact hr)
              · intro r hr
                have : r ∈ nm.readings := List.mem_of_mem_filter hr
                exact hwfN r (by rw [hsN]; exact this)
              · exact hsort
      case true =>
        simp only [hsv_merge_data, hNd, hre, if_true, Except.ok.injEq,
          Prod.mk.injEq] at hm
        obtain ⟨rfl, -⟩ := hm
        exact cpLe_refl _

/-- Witness for `C7_checkpoint_monotone` at a concrete input. -/
theorem C7_witness :
    cpLe (hsv_get_last_timestamp [("ELECTRIC", [c1Meter])] "ELECTRIC")
      (hsv_get_last_timestamp
        [("ELECTRIC",
          [⟨some "M1", some "KWH", some "DELIVERED", false, 2,
            [⟨some 1, .iso 1, 10⟩, ⟨some 5, .iso 5, 7⟩]⟩])] "ELECTRIC") :=
  C7_checkpoint_monotone [("ELECTRIC", [c1Meter])]
    [("ELECTRIC", [c2wBatchMeter])] "ELECTRIC"
    [("ELECTRIC",
      [⟨some "M1", some "KWH", some "DELIVERED", false, 2,
        [⟨some 1, .iso 1, 10⟩, ⟨some 5, .iso 5, 7⟩]⟩])] 1
    (by decide) (by decide) (by decide)

/-! ## C8 — dedup key for reduced-granularity records -/

def c8WaterMeter : HsvMeter :=
  ⟨some "LOC", some "GAL", some "DELIVERED", false, 1,
    [⟨some 5, .iso 5, 3⟩]⟩

def c8MonthlyMeter : HsvMeter :=
  ⟨some "LOC", some "GAL", some "DELIVERED", false, 1,
    [⟨none, .monthly 10 2025, 42⟩]⟩

/-- C8, counterexample.  The claim says a reduced-granularity record
without an exact timestamp participates in dedup and merge via its
composite (month, year) key.  In `merge_data` of
`src/scrapers/hsv_scraper_incremental.py` it does not: merging a batch
whose only reading is the monthly record 10/2025 (timestamp null,
composite key not present in the existing WATER series) adds nothing —
the record is dropped because only truthy timestamps are ever inserted —
and the state is returned unchanged with `addedCount = 0`, where the
claim requires the series to gain the record. -/
theorem C8_counterexample :
    hsv_merge_data [("WATER", [c8WaterMeter])] [("WATER", [c8MonthlyMeter])]
        "WATER" =
      .ok ([("WATER", [c8WaterMeter])], 0) ∧
    decide ((⟨none, .monthly 10 2025, 42⟩ : HsvReading) ∈
      seriesReadings [("WATER", [c8WaterMeter])] "WATER") = false := by
  refine ⟨by decide, by decide⟩

/-- C8, amended.  In the hsv incremental merger the dedup key is the
truthy timestamp only: every reading of the merged series of an
already-present industry either was already stored or is a batch reading
with a truthy (non-null, non-zero) timestamp.  Readings without an exact
timestamp never enter an existing series — they are not keyed by their
composite datetime. -/
theorem C8_amended (existing new_data : HsvData) (ind : String)
    (m0 : HsvMeter) (rest : List HsvMeter) (d' : HsvData) (a : Nat)
    (hE : dictGet existing ind = some (m0 :: rest))
    (hm : hsv_merge_data existing new_data ind = .ok (d', a)) :
    ∀ r ∈ seriesReadings d' ind,
      r ∈ m0.readings ∨
        (r ∈ seriesReadings new_data ind ∧ tsTruthy r.timestamp = true) := by
  intro r hr
  cases hNd : dictGet new_data ind with
  | none =>
    simp only [hsv_merge_data, hNd, Except.ok.injEq, Prod.mk.injEq] at hm
    obtain ⟨rfl, -⟩ := hm
    left
    unfold seriesReadings at hr
    rw [hE] at hr
    exact hr
  | some ms =>
    cases ms with
    | nil =>
      simp only [hsv_merge_data, hNd, Except.ok.injEq, Prod.mk.injEq] at hm
      obtain ⟨rfl, -⟩ := hm
      left
      unfold seriesReadings at hr
      rw [hE] at hr
      exact hr
    | cons nm nrest =>
      cases hre : nm.readings.isEmpty
      case true =>
        simp only [hsv_merge_data, hNd, hre, if_true, Except.ok.injEq,
          Prod.mk.injEq] at hm
        obtain ⟨rfl, -⟩ := hm
        left
        unfold seriesReadings at hr
        rw [hE] at hr
        exact hr
      case false =>
        have hnmne : nm.readings ≠ [] := by
          intro hnil
          rw [hnil] at hre
          cases hre
        rw [hsv_merge_kept existing new_data ind hE hNd hnmne] at hm
        cases hsort : pySortReadings
            (m0.readings ++ appendedReadings m0.readings nm.readings) with
        | error e =>
          rw [hsort] at hm
          cases hm
        | ok sorted =>
          rw [hsort] at hm
          simp only [Except.ok.injEq, Prod.mk.injEq] at hm
          obtain ⟨rfl, -⟩ := hm
          obtain ⟨hsorted_eq, -⟩ := pySortReadings_ok_inv hsort
          unfold seriesReadings at hr
          rw [dictGet_dictSet] at hr
          have hrs : r ∈ sorted := hr
          have hperm : sorted.Perm
              (m0.readings ++ appendedReadings m0.readings nm.readings) := by
            rw [hsorted_eq]
            exact List.perm_insertionSort readingLe _
          have hrc : r ∈ m0.readings ++
              appendedReadings m0.readings nm.readings := hperm.subset hrs
          rcases List.mem_append.mp hrc with h | h
          · exact Or.inl h
          · right
            refine ⟨?_, appendedReadings_truthy _ _ r h⟩
            unfold seriesReadings
            rw [hNd]
            exact List.mem_of_mem_filter h

/-- Witness for `C8_amended`: the sole reading of the merged WATER series
above was already stored. -/
theorem C8_amended_witness :
    (⟨some 5, .iso 5, 3⟩ : HsvReading) ∈ c8WaterMeter.readings ∨
      ((⟨some 5, .iso 5, 3⟩ : HsvReading) ∈
          seriesReadings [("WATER", [c8MonthlyMeter])] "WATER" ∧
        tsTruthy (some 5) = true) :=
  C8_amended [("WATER", [c8WaterMeter])] [("WATER", [c8MonthlyMeter])]
    "WATER" c8WaterMeter [] [("WATER", [c8WaterMeter])] 0 (by decide)
    (by decide) ⟨some 5, .iso 5, 3⟩ (by decide)

/-! ## C3 — persistence is not atomic -/

theorem crashContents_writes (chunks : List String) (acc : String) :
    crashContents acc (chunks.map FsOp.writeChunk) =
      (List.range (chunks.length + 1)).map
        (fun n => acc ++ concatAll (chunks.take n)) := by
  induction chunks generalizing acc with
  | nil => simp [crashContents, concatAll]
  | cons c cs ih =>
    simp only [List.map_cons, crashContents, applyFsOp]
    rw [ih (acc ++ c)]
    conv_rhs => rw [List.length_cons, List.range_succ_eq_map]
    simp only [List.map_cons, List.map_map]
    congr 1
    · simp [concatAll]
    · apply List.map_congr_left
      intro n _
      simp [Function.comp, concatAll, List.take_succ_cons,
        String.append_assoc]

/-- C3, counterexample.  The claim says persistence writes to a temporary
location and then replaces the data file, so an interruption can never
leave the file in a corrupted form.  `save_data` (and `_save_json`) open
the data file itself in truncating write mode: interrupting right after
the open leaves the file empty — neither the old content `"OLD"` nor the
new content `"NEW"`. -/
theorem C3_counterexample :
    crashContents "OLD" (save_data_ops ["NEW"]) = ["OLD", "", "NEW"] ∧
    decide (("" : String) ∈ ["OLD", "NEW"]) = false := by
  refine ⟨rfl, by decide⟩

/-- C3, amended.  `save_data`/`_save_json` write the data file in place —
truncate, then append the serialization chunk by chunk, with no temporary
file and no rename — so the contents reachable by interrupting the save
are exactly: the old content (not started), and every prefix
concatenation of the new chunks, including the empty (just-truncated)
file. -/
theorem C3_amended (old : String) (chunks : List String) :
    crashContents old (save_data_ops chunks) =
      old :: (List.range (chunks.length + 1)).map
        (fun n => concatAll (chunks.take n)) := by
  unfold save_data_ops
  show old :: crashContents (applyFsOp old .openTruncate)
      (chunks.map FsOp.writeChunk) = _
  rw [show applyFsOp old .openTruncate = "" from rfl,
    crashContents_writes chunks ""]
  congr 1

/-! ## C4 — unauthorized response handling -/

def c4Oracle : Nat → EcoHttp := fun i => if i = 0 then .err 401 else .ok "body"

/-- C4, counterexample.  The claim says an unauthorized data response
invalidates the cached token and the request is retried exactly once
after re-authentication, the pass then reporting success.  In
`src/scrapers/ecobee_scraper_incremental.py` a 401 is re-raised by
`get_thermostat_data` without any retry, and `main`'s handler only prints
"token expired, will reauth next run" and re-raises: against an oracle
whose first response is 401 and whose second would succeed, the pass
makes exactly one request, invalidates nothing, and fails. -/
theorem C4_counterexample :
    ecobee_main_fetch_phase c4Oracle =
      ⟨Except.error 401, 1, false⟩ := by
  unfold ecobee_main_fetch_phase
  rw [ecobeeFetchGo]
  rfl

/-- C4, amended.  Whenever the first `runtimeReport` response of the fetch
phase is a 401, the request is not retried (exactly one request is made),
the cached token is not invalidated within the pass, and the pass fails
with that unauthorized error; re-authentication is deferred to the next
run's token-validation probe. -/
theorem C4_amended (oracle : Nat → EcoHttp) (h : oracle 0 = .err 401) :
    ecobee_main_fetch_phase oracle = ⟨Except.error 401, 1, false⟩ := by
  unfold ecobee_main_fetch_phase
  rw [ecobeeFetchGo, h]
  rfl

def c4wOracle : Nat → EcoHttp := fun _ => .err 401

/-- Witness for `C4_amended` at a concrete oracle. -/
theorem C4_amended_witness :
    ecobee_main_fetch_phase c4wOracle = ⟨Except.error 401, 1, false⟩ :=
  C4_amended c4wOracle rfl

/-! ## C5 — poll-loop bound without a timeout error -/

/-- Constant in-progress poll response whose body has no `data` entry. -/
def c5Oracle : Nat → HsvPollResp := fun _ => ⟨false, none⟩

def c5OkOracle : Nat → HsvPollResp := fun _ => ⟨true, some [("ELECTRIC", [])]⟩

/-- C5, counterexample.  The claim says that exceeding the poll bound
yields a PollTimeout error for that window, the window is skipped and the
remaining windows of the pass proceed.  Against an oracle that never
completes and never carries a `data` entry, `get_usage_data` makes its 31
bounded requests and then hands the stale response to
`process_usage_data`, which raises `KeyError` — not any timeout error —
and the industry loop of `main` propagates it, so the remaining
industries are never fetched (and `save_data` is never reached). -/
theorem C5_counterexample :
    hsv_get_usage_data c5Oracle = .error PyErr.keyError ∧
    hsvPollRequests c5Oracle = 31 ∧
    hsv_main_loop
      (fun ind => if ind = "ELECTRIC" then c5Oracle else c5OkOracle) []
      ["ELECTRIC", "GAS", "WATER"] = .error PyErr.keyError := by
  refine ⟨rfl, rfl, rfl⟩

/-- Core lemma about the poll loop: when no response ever completes, the
loop runs its full budget. -/
theorem hsvPollGo_never (oracle : Nat → HsvPollResp)
    (h : ∀ i, (oracle i).complete = false) :
    ∀ retries reqs cur, cur.complete = false →
      hsvPollGo oracle cur reqs retries =
        (if retries = 0 then cur else oracle (reqs + retries - 1),
          reqs + retries) := by
  intro retries
  induction retries with
  | zero =>
    intro reqs cur hcur
    rw [hsvPollGo, hcur]
    simp
  | succ n ih =>
    intro reqs cur hcur
    rw [hsvPollGo, hcur]
    simp only [Bool.false_eq_true, if_false]
    rw [ih (reqs + 1) (oracle reqs) (h reqs)]
    by_cases h0 : n = 0
    · subst h0
      simp
    · rw [if_neg h0, if_neg (by omega : ¬ n + 1 = 0)]
      have e1 : reqs + 1 + n - 1 = reqs + (n + 1) - 1 := by omega
      have e2 : reqs + 1 + n = reqs + (n + 1) := by omega
      rw [e1, e2]

/-- C5, amended.  The Fetcher re-polls the same job at a fixed interval,
bounded by 30 retries (31 requests in all) — that much of the claim
holds.  But exceeding the bound yields no PollTimeout: the 31st (stale,
incomplete) response is processed as if it were complete, which raises a
fatal `KeyError` when it has no `data` entry, and that exception
propagates through `main`'s industry loop, aborting the remaining
industries instead of skipping the window. -/
theorem C5_amended (oracle : Nat → HsvPollResp)
    (h : ∀ i, (oracle i).complete = false)
    (hp : (oracle 30).payload = none)
    (oracles : String → Nat → HsvPollResp) (existing : HsvData)
    (ind : String) (rest : List String) (ho : oracles ind = oracle) :
    hsvPollRequests oracle = 31 ∧
    hsv_get_usage_data oracle = .error PyErr.keyError ∧
    hsv_main_loop oracles existing (ind :: rest) =
      .error PyErr.keyError := by
  have hfinal : hsvPollGo oracle (oracle 0) 1 30 = (oracle 30, 31) := by
    rw [hsvPollGo_never oracle h 30 1 (oracle 0) (h 0)]
    simp
  have hget : hsv_get_usage_data oracle = .error PyErr.keyError := by
    unfold hsv_get_usage_data
    rw [hfinal]
    simp only [hp]
  refine ⟨?_, hget, ?_⟩
  · unfold hsvPollRequests
    rw [hfinal]
  · rw [hsv_main_loop, ho, hget]

/-- Witness for `C5_amended` at a concrete oracle. -/
theorem C5_amended_witness :
    hsvPollRequests c5Oracle = 31 ∧
    hsv_get_usage_data c5Oracle = .error PyErr.keyError ∧
    hsv_main_loop (fun _ => c5Oracle) [] ["ELECTRIC", "GAS", "WATER"] =
      .error PyErr.keyError :=
  C5_amended c5Oracle (fun _ => rfl) rfl (fun _ => c5Oracle) []
    "ELECTRIC" ["GAS", "WATER"] rfl

/-! ## C6 — window planner coverage -/

theorem chunkWindows_bounds (startD endD : Int) :
    ∀ w ∈ chunkWindows startD endD,
      startD ≤ w.1 ∧ w.1 ≤ w.2 ∧ w.2 ≤ endD ∧ w.2 - w.1 ≤ 360 := by
  rw [chunkWindows]
  split
  case isTrue h =>
    intro w hw
    rcases List.mem_cons.mp hw with rfl | hw'
    · refine ⟨le_max_right _ _, ?_, le_refl _, ?_⟩ <;> · simp only; omega
    · have ih :=
        chunkWindows_bounds startD (max (endD - 359) startD - 1) w hw'
      have h3 := ih.2.2.1
      exact ⟨ih.1, ih.2.1, by omega, ih.2.2.2⟩
  case isFalse h =>
    intro w hw
    simp at hw
termination_by (endD - startD).toNat
decreasing_by
  simp_wf
  omega

theorem chunkWindows_covers (startD endD : Int) :
    ∀ d : Int, startD < d → d ≤ endD →
      ∃ w ∈ chunkWindows startD endD, w.1 ≤ d ∧ d ≤ w.2 := by
  intro d hd1 hd2
  have h : startD < endD := lt_of_lt_of_le hd1 hd2
  rw [chunkWindows, dif_pos h]
  by_cases hs : max (endD - 359) startD ≤ d
  · exact ⟨(max (endD - 359) startD, endD), List.mem_cons_self _ _, hs, hd2⟩
  · have hrec := chunkWindows_covers startD (max (endD - 359) startD - 1) d
      hd1 (by omega)
    rcases hrec with ⟨w, hw, hw1, hw2⟩
    exact ⟨w, List.mem_cons_of_mem _ hw, hw1, hw2⟩
termination_by (endD - startD).toNat
decreasing_by
  simp_wf
  omega

theorem chunkWindows_pairwise (startD endD : Int) :
    List.Pairwise (fun w w' : Int × Int => w'.2 < w.1)
      (chunkWindows startD endD) := by
  rw [chunkWindows]
  split
  case isTrue h =>
    refine List.Pairwise.cons ?_
      (chunkWindows_pairwise startD (max (endD - 359) startD - 1))
    intro w' hw'
    have hb := chunkWindows_bounds startD (max (endD - 359) startD - 1) w' hw'
    have h3 := hb.2.2.1
    simp only
    omega
  case isFalse h => exact List.Pairwise.nil
termination_by (endD - startD).toNat
decreasing_by
  simp_wf
  omega

theorem chunkWindows_start_cover (startD endD : Int) (h : startD < endD) :
    ((∃ w ∈ chunkWindows startD endD, w.1 ≤ startD ∧ startD ≤ w.2) ↔
      ¬((endD - startD) % 360 = 0)) := by
  rw [chunkWindows, dif_pos h]
  by_cases hk : endD - 359 ≤ startD
  · constructor
    · intro _
      omega
    · intro _
      refine ⟨(max (endD - 359) startD, endD), List.mem_cons_self _ _,
        ?_, ?_⟩ <;> · simp only; omega
  · by_cases hz : endD - 360 = startD
    · have htail : chunkWindows startD (max (endD - 359) startD - 1) = [] := by
        rw [chunkWindows, dif_neg (by omega)]
      constructor
      · rintro ⟨w, hw, hw1, hw2⟩
        exfalso
        rcases List.mem_cons.mp hw with rfl | hw'
        · simp only at hw1
          omega
        · rw [htail] at hw'
          simp at hw'
      · intro hr
        exfalso
        apply hr
        omega
    · have h' : startD < max (endD - 359) startD - 1 := by omega
      have ih := chunkWindows_start_cover startD
        (max (endD - 359) startD - 1) h'
      constructor
      · rintro ⟨w, hw, hw1, hw2⟩
        rcases List.mem_cons.mp hw with rfl | hw'
        · exfalso
          simp only at hw1
          omega
        · have hmpr := ih.mp ⟨w, hw', hw1, hw2⟩
          omega
      · intro hr
        have hmpr := ih.mpr (by omega)
        rcases hmpr with ⟨w, hw', hw1, hw2⟩
        exact ⟨w, List.mem_cons_of_mem _ hw', hw1, hw2⟩
termination_by (endD - startD).toNat
decreasing_by
  simp_wf
  omega

theorem coveredBy_iff (ws : List (Int × Int)) (d : Int) :
    coveredBy ws d = true ↔ ∃ w ∈ ws, w.1 ≤ d ∧ d ≤ w.2 := by
  simp [coveredBy, List.any_eq_true, Bool.and_eq_true, decide_eq_true_iff]

/-- C6, counterexample.  The claim says the emitted windows cover
`[effectiveStart, now]` with no gaps.  For a span of exactly 720 days
(`days_to_fetch > 360`, so the chunk loop runs), the loop emits
`[(361, 720), (1, 360)]` and stops with `current_end = 0 = start_date`:
day 0 — `effectiveStart` itself — is not inside any window. -/
theorem C6_counterexample :
    planWindows 0 720 = [(361, 720), (1, 360)] ∧
    coveredBy (planWindows 0 720) 0 = false := by
  have hp : planWindows 0 720 = [(361, 720), (1, 360)] := by
    unfold planWindows
    rw [if_neg (by norm_num)]
    rw [chunkWindows, dif_pos (by norm_num)]
    norm_num
    rw [chunkWindows, dif_pos (by norm_num)]
    norm_num
    rw [chunkWindows, dif_neg (by norm_num)]
  exact ⟨hp, by rw [hp]; decide⟩

/-- Every emitted window stays inside `[startD, endD]` and spans at most
the maximum window size. -/
def windowsOkB (startD endD : Int) (ws : List (Int × Int)) : Bool :=
  ws.all (fun w => decide (startD ≤ w.1) && decide (w.1 ≤ w.2) &&
    decide (w.2 ≤ endD) && decide (w.2 - w.1 ≤ 360))

/-- Every day of `(startD, endD]` is covered by some emitted window. -/
def coverageOkB (startD endD : Int) (ws : List (Int × Int)) : Bool :=
  (List.range (endD - startD).toNat).all
    (fun i => coveredBy ws (startD + 1 + i))

/-- C6, amended.  The planner of `main` emits windows working backward
from `now`, each spanning at most the 360-day maximum, pairwise disjoint
(so overlap is trivially within any margin), covering every day of
`(effectiveStart, now]`; but `effectiveStart` itself is covered exactly
when the span is at most 360 days or not a positive multiple of 360 —
for spans that are a larger multiple of 360 days the oldest day is left
out. -/
theorem C6_amended (startD endD : Int) (h : startD ≤ endD) :
    windowsOkB startD endD (planWindows startD endD) = true ∧
    coverageOkB startD endD (planWindows startD endD) = true ∧
    coveredBy (planWindows startD endD) startD =
      (decide (endD - startD ≤ 360) ||
        !decide ((endD - startD) % 360 = 0)) ∧
    decide (List.Pairwise (fun w w' : Int × Int => w'.2 < w.1)
      (planWindows startD endD)) = true := by
  by_cases hpath : endD - startD ≤ 360
  · have hplan : planWindows startD endD = [(startD, endD)] := by
      unfold planWindows
      rw [if_pos hpath]
    rw [hplan]
    refine ⟨?_, ?_, ?_, ?_⟩
    · simp only [windowsOkB, List.all_cons, List.all_nil, Bool.and_true,
        Bool.and_eq_true, decide_eq_true_iff]
      refine ⟨⟨⟨le_refl _, h⟩, le_refl _⟩, hpath⟩
    · rw [coverageOkB, List.all_eq_true]
      intro i hi
      rw [List.mem_range] at hi
      rw [coveredBy_iff]
      refine ⟨(startD, endD), List.mem_singleton_self _, by omega, by omega⟩
    · have hc : coveredBy [(startD, endD)] startD = true := by
        rw [coveredBy_iff]
        exact ⟨(startD, endD), List.mem_singleton_self _, le_refl _, h⟩
      rw [hc, decide_eq_true hpath, Bool.true_or]
    · simp
  · have hlt : startD < endD := by omega
    have hplan : planWindows startD endD = chunkWindows startD endD := by
      unfold planWindows
      rw [if_neg hpath]
    rw [hplan]
    have hiff : coveredBy (chunkWindows startD endD) startD = true ↔
        ¬((endD - startD) % 360 = 0) :=
      (coveredBy_iff _ _).trans (chunkWindows_start_cover startD endD hlt)
    refine ⟨?_, ?_, ?_, ?_⟩
    · rw [windowsOkB, List.all_eq_true]
      intro w hw
      have hb := chunkWindows_bounds startD endD w hw
      simp only [Bool.and_eq_true, decide_eq_true_iff]
      exact ⟨⟨⟨hb.1, hb.2.1⟩, hb.2.2.1⟩, hb.2.2.2⟩
    · rw [coverageOkB, List.all_eq_true]
      intro i hi
      rw [List.mem_range] at hi
      rw [coveredBy_iff]
      exact chunkWindows_covers startD endD (startD + 1 + i) (by omega)
        (by omega)
    · rw [decide_eq_false hpath, Bool.false_or]
      by_cases hz : (endD - startD) % 360 = 0
      · have hf : coveredBy (chunkWindows startD endD) startD = false :=
          Bool.eq_false_iff.mpr (fun hcb => hiff.mp hcb hz)
        rw [hf, decide_eq_true hz]
        rfl
      · have ht : coveredBy (chunkWindows startD endD) startD = true :=
          hiff.mpr hz
        rw [ht, decide_eq_false hz]
        rfl
    · exact decide_eq_true (chunkWindows_pairwise startD endD)

/-- Witness for `C6_amended` at a concrete input (500-day span). -/
theorem C6_amended_witness :
    windowsOkB 0 500 (planWindows 0 500) = true ∧
    coverageOkB 0 500 (planWindows 0 500) = true ∧
    coveredBy (planWindows 0 500) 0 =
      (decide ((500 : Int) - 0 ≤ 360) || !decide (((500 : Int) - 0) % 360 = 0)) ∧
    decide (List.Pairwise (fun w w' : Int × Int => w'.2 < w.1)
      (planWindows 0 500)) = true :=
  C6_amended 0 500 (by norm_num)

/-! ## C9 — merge return shape -/

def c9Tstat : EcoTstat :=
  ⟨"T1", 1, [⟨1700000000000, 1700000000000, [("zoneAveTemp", "70")]⟩]⟩

/-- C9: the claim says `merge(existingSeries, newReadings)` returns a
`(mergedSeries, addedCount)` pair for every input, including an empty
batch and a not-yet-present series.  The code is wrong: the three early
paths of `merge_data` in `src/scrapers/ecobee_scraper_incremental.py`
return the `existing` dict alone.  In particular the very first
successful sync (fresh state `THERMOSTAT: []`, nonempty fetched batch)
takes the series-creation path and returns a bare dict, so the caller's
tuple unpacking `merged_data, added = merge_data(...)` raises
`ValueError`; the same happens for an empty batch. -/
theorem C9_bug :
    ecobee_merge_data [] [c9Tstat] = .bare [c9Tstat] ∧
    ecobee_main_merge_step [] [c9Tstat] = .error .valueError ∧
    ecobee_merge_data [c9Tstat] [] = .bare [c9Tstat] ∧
    ecobee_main_merge_step [c9Tstat] [] = .error .valueError := by
  refine ⟨by decide, by decide, by decide, by decide⟩

/-! ## C10 — process_data and small store intervals -/

def c10Payload : EcoRuntimeData :=
  ⟨"zoneAveTemp", [⟨"T1", [["2025-01-01", "00:00:00", "70"]]⟩]⟩

/-- C10, counterexample.  The claim says `process_data` raises
`ZeroDivisionError` for any `store_interval_minutes < 5` on a payload
with at least one row.  For a negative interval this is false: Python's
floor division gives `-1 // 5 = -1`, and `idx % -1 = 0` keeps every row,
so the call at `-1` returns a normal result instead of raising. -/
theorem C10_counterexample :
    ecobee_process_data (some c10Payload) (-1) =
      .ok [("THERMOSTAT",
        [⟨"T1", 1,
          [⟨"2025-01-01", "00:00:00", [("zoneAveTemp", "70")]⟩]⟩])] := by
  decide

theorem eco_process_rows_zero (cols : List String) (idx : Nat)
    (parts : List String) (rows : List (List String)) :
    eco_process_rows 0 cols idx (parts :: rows) =
      .error .zeroDivisionError := by
  rw [eco_process_rows]
  simp

theorem eco_process_reports_zero (cols : List String)
    (reports : List EcoReport) (r : EcoReport) (hr : r ∈ reports)
    (hrows : r.rowList ≠ []) :
    eco_process_reports 0 cols reports = .error .zeroDivisionError := by
  induction reports with
  | nil => cases hr
  | cons q qs ih =>
    rw [eco_process_reports]
    rcases List.mem_cons.mp hr with rfl | hr'
    · cases hrl : r.rowList with
      | nil => exact absurd hrl hrows
      | cons p ps =>
        rw [eco_process_rows_zero]
    · cases hq : q.rowList with
      | nil =>
        have h1 : eco_process_rows 0 cols 0 ([] : List (List String)) =
            .ok [] := rfl
        rw [h1, ih hr']
      | cons p ps =>
        rw [eco_process_rows_zero]

/-- C10, amended.  `process_data` raises `ZeroDivisionError` whenever
`0 ≤ store_interval_minutes < 5` (so `skip = store_interval_minutes // 5`
is zero) and some report carries at least one row; for negative
intervals the floor division yields a nonzero negative skip and no error
is raised (see the counterexample at `-1`). -/
theorem C10_amended (s : Int) (d : EcoRuntimeData)
    (h0 : 0 ≤ s) (h5 : s < 5) (r : EcoReport)
    (hr : r ∈ d.reportList) (hrows : r.rowList ≠ []) :
    ecobee_process_data (some d) s = .error .zeroDivisionError := by
  have hskip : Int.fdiv s 5 = 0 := by
    rw [Int.fdiv_eq_ediv _ (by norm_num)]
    omega
  show (match eco_process_reports (Int.fdiv s 5) (splitOnComma d.columns)
      d.reportList with
    | .error e => Except.error e
    | .ok ts => .ok [("THERMOSTAT", ts)]) = _
  rw [hskip,
    eco_process_reports_zero (splitOnComma d.columns) d.reportList r hr hrows]

/-- Witness for `C10_amended` at a concrete input. -/
theorem C10_amended_witness :
    ecobee_process_data (some c10Payload) 3 = .error .zeroDivisionError :=
  C10_amended 3 c10Payload (by norm_num) (by norm_num)
    ⟨"T1", [["2025-01-01", "00:00:00", "70"]]⟩ (by decide) (by decide)

end UtilitiesScraper
